import Mathlib

/-!
Verification of the weekly inventory-allocation engine of App_ventas_LB.

The embedding models `calcular_asignacion_semanal_secuencial`
(src/database.py, lines 1901-2143) for a single SKU: the function loops
over SKUs independently (`df.groupby('sku')`), sharing no state between
them, so one SKU's pass is the unit of meaning.  Floating-point values of
the source are modelled as rationals; Python's `round` (banker's rounding,
half to even) is modelled exactly by `pyRound`.  The week list, the
seasonality factors, the per-channel monthly quota, the inventory columns
of the dataframe and "today's" ISO week number (`datetime.now().isocalendar()[1]`,
read once at line 1922) are the inputs of the model, gathered in `Entrada`.

Row fields that the claims never touch (`descripcion`, `asignacion_original`,
`redistribucion_recibida`, `fuente_redistribucion`, `cupo_semanal_teorico_canal`,
`asignacion_semana`, `ventas_totales_semana`, `ventas_totales_informativas`)
are display duplicates of modelled data and are omitted from `Fila`.  The
`cupos_semanales` table precomputed at lines 1941-1946 is stored in
`canales_data` but never read afterwards (the weekly amounts are recomputed
from the live pool each week), so the model omits it.
-/

/-- One channel of a SKU as read from the dataframe: its identifier, its
monthly quota (`cupo_mensual_canal`) and its informational weight
(`peso_canal`).  Mirrors the per-channel data gathered at lines 1936-1955. -/
structure CanalDatos where
  canal : ℕ
  cupo_mensual_canal : ℚ
  peso_canal : ℚ
deriving DecidableEq, Repr

/-- The inputs of one SKU's pass of `calcular_asignacion_semanal_secuencial`.
`presente c s` tells whether the dataframe has a row for channel `c` in week
`s` (a missing row makes the Python loop `continue`); `ventas_reales_bd` is
the `ventas_reales` column; `inventario_inicial_db`, `arribos_esperados` and
`forecast_b2b` are the week-level inventory columns (identical on every row
of a week); `cupo_mensual_total_df` is the dataframe's `cupo_mensual_total`
column (computed by the SQL query, identical on all rows of the SKU);
`semanas` and `factores` come from the month's `config`; `semana_actual` is
the ISO week number of "today". -/
structure Entrada where
  canales : List CanalDatos
  presente : ℕ → ℕ → Bool
  ventas_reales_bd : ℕ → ℕ → ℚ
  inventario_inicial_db : ℕ → ℚ
  arribos_esperados : ℕ → ℚ
  forecast_b2b : ℕ → ℚ
  cupo_mensual_total_df : ℚ
  semanas : List ℕ
  factores : ℕ → ℚ
  semana_actual : ℕ

/-- The engine state carried from week to week inside one SKU's pass:
`inventario_disponible_semana_anterior` (line 1927), `asignaciones_acumuladas`
(line 1930, an `int` because it accumulates results of Python's `round`) and
the per-channel `bolsa_disponible` values (line 1952), listed in the order of
`canales`. -/
structure Estado where
  inventario_disponible_semana_anterior : ℚ
  asignaciones_acumuladas : ℤ
  bolsas : List ℚ
deriving DecidableEq, Repr

/-- One output row of the engine (the dict built at lines 2070-2090
restricted to the fields the claims are about).  `cupo_canal_restante` is the
channel's bolsa after the week's update, as in the source (the update at line
2066 runs before the dict is built). -/
structure Fila where
  semana : ℕ
  canal : ℕ
  inventario_inicial : ℚ
  arribos_esperados : ℚ
  forecast_b2b : ℚ
  inventario_fisico : ℚ
  cupo_mensual_total : ℚ
  cupo_mensual_canal : ℚ
  cupo_canal_restante : ℚ
  asignacion_canal : ℤ
  ventas_reales : ℚ
  ventas_reales_informativas : ℚ
  peso_canal : ℚ
deriving DecidableEq, Repr

/-- Python's built-in `round`: round half to even. -/
def pyRound (x : ℚ) : ℤ :=
  if x - ⌊x⌋ < 1/2 then ⌊x⌋
  else if 1/2 < x - ⌊x⌋ then ⌊x⌋ + 1
  else if ⌊x⌋ % 2 = 0 then ⌊x⌋ else ⌊x⌋ + 1

/-- Sum of the monthly quotas of a channel list (`cupo_mensual_total_sku`,
accumulated at line 1955). -/
def sumaCupos : List CanalDatos → ℚ
  | [] => 0
  | c :: t => c.cupo_mensual_canal + sumaCupos t

/-- `cupo_mensual_total_sku`: the SKU's total monthly quota, summed by the
engine itself over its channels. -/
def cupoMensualTotalSku (e : Entrada) : ℚ := sumaCupos e.canales

/-- Whether the dataframe has at least one row for week `s`
(`datos_semana.empty` is the negation, line 1961). -/
def hayFilaSemana (e : Entrada) (s : ℕ) : List CanalDatos → Bool
  | [] => false
  | c :: t => e.presente c.canal s || hayFilaSemana e s t

/-- `datos_s_pasada['ventas_reales'].sum()`: the week's recorded sales summed
over the channels that have a row in that week. -/
def ventasSemanaBD (e : Entrada) (sp : ℕ) : List CanalDatos → ℚ
  | [] => 0
  | c :: t =>
    (if e.presente c.canal sp then e.ventas_reales_bd c.canal sp else 0) +
      ventasSemanaBD e sp t

/-- `ventas_reales_pasadas` (lines 1987-1993): recorded sales of the
configured weeks that lie strictly before week `s` and have already ended
(`s_pasada < semana_num and s_pasada < semana_actual`). -/
def ventasRealesPasadas (e : Entrada) (s : ℕ) : List ℕ → ℚ
  | [] => 0
  | sp :: t =>
    (if sp < s ∧ sp < e.semana_actual then ventasSemanaBD e sp e.canales else 0) +
      ventasRealesPasadas e s t

/-- `suma_factores_restantes` (line 2003): the seasonality factors summed over
the configured weeks `x` with `s ≤ x`. -/
def sumaFactoresRestantes (e : Entrada) (s : ℕ) : List ℕ → ℚ
  | [] => 0
  | x :: t => (if s ≤ x then e.factores x else 0) + sumaFactoresRestantes e s t

/-- `proporcion_semana` (line 2005): this week's share of the remaining
seasonality factors, 0 when their sum is not positive. -/
def proporcionSemana (e : Entrada) (s : ℕ) : ℚ :=
  if 0 < sumaFactoresRestantes e s e.semanas then
    e.factores s / sumaFactoresRestantes e s e.semanas
  else 0

/-- `inventario_disponible_mes` (line 1997): total quota minus recorded sales
of closed earlier weeks minus the assignments accumulated for already
processed current/future weeks. -/
def inventarioDisponibleMes (e : Entrada) (st : Estado) (s : ℕ) : ℚ :=
  cupoMensualTotalSku e - ventasRealesPasadas e s e.semanas -
    (st.asignaciones_acumuladas : ℚ)

/-- `inventario_teorico_semana` (line 2009). -/
def inventarioTeoricoSemana (e : Entrada) (st : Estado) (s : ℕ) : ℚ :=
  inventarioDisponibleMes e st s * proporcionSemana e s

/-- `suma_bolsas` (line 2012): the sum of the strictly positive channel
balances. -/
def sumaBolsasPositivas : List ℚ → ℚ
  | [] => 0
  | b :: t => (if 0 < b then b else 0) + sumaBolsasPositivas t

/-- Lines 1973-1978: a week whose `inventario_inicial` column is positive uses
that value, otherwise the balance carried forward from the prior week. -/
def inventarioInicialReal (inv_db anterior : ℚ) : ℚ :=
  if 0 < inv_db then inv_db else anterior

/-- Line 1980: `inventario_fisico = max(0, inventario_inicial_real + arribos - forecast_b2b)`. -/
def inventarioFisicoDisponible (inv_db anterior arr fb : ℚ) : ℚ :=
  max 0 (inventarioInicialReal inv_db anterior + arr - fb)

/-- The week's physical availability, from the state and the week's columns. -/
def inventarioFisicoSemana (e : Entrada) (st : Estado) (s : ℕ) : ℚ :=
  inventarioFisicoDisponible (e.inventario_inicial_db s)
    st.inventario_disponible_semana_anterior (e.arribos_esperados s) (e.forecast_b2b s)

/-- `inventario_semanal_total` (lines 2014-2022): current/future weeks
(`semana_num >= semana_actual`) distribute the full theoretical amount; closed
weeks distribute `min(inventario_fisico, inventario_teorico, suma_bolsas)`. -/
def inventarioSemanalTotal (e : Entrada) (st : Estado) (s : ℕ) : ℚ :=
  if e.semana_actual ≤ s then inventarioTeoricoSemana e st s
  else
    min (min (inventarioFisicoSemana e st s) (inventarioTeoricoSemana e st s))
      (sumaBolsasPositivas st.bolsas)

/-- One channel's processing inside a week (lines 2031-2090): the produced row
and the channel's updated bolsa.  `total` is `inventario_semanal_total`,
`suma` is `suma_bolsas` (both computed before the channel loop), `invR` and
`fis` the week's initial and physical inventory. -/
def filaCanal (e : Entrada) (s : ℕ) (total suma invR fis : ℚ) (c : CanalDatos)
    (bolsa : ℚ) : Fila × ℚ :=
  let v_bd := e.ventas_reales_bd c.canal s
  let v_calc := if s < e.semana_actual then v_bd else 0
  let factor := if 0 < suma then bolsa / suma else 0
  let asignacion := pyRound (min (total * factor) bolsa)
  let bolsaNueva := max 0 (bolsa - v_calc)
  (⟨s, c.canal, invR, e.arribos_esperados s, e.forecast_b2b s, fis,
    e.cupo_mensual_total_df, c.cupo_mensual_canal, bolsaNueva, asignacion,
    v_calc, v_bd, c.peso_canal⟩, bolsaNueva)

/-- The channel loop of a week (lines 2025-2090): walks the channels and their
bolsas in parallel; a channel without a row this week is skipped and keeps its
bolsa.  Returns the week's rows and the updated bolsa list.  Each channel's
factor uses the bolsas as they were at the start of the week, exactly as the
source (its `suma_bolsas` is precomputed and each bolsa is only written in
its own iteration). -/
def procesarCanales (e : Entrada) (s : ℕ) (total suma invR fis : ℚ) :
    List CanalDatos → List ℚ → List Fila × List ℚ
  | [], _ => ([], [])
  | _ :: _, [] => ([], [])
  | c :: cs, b :: bs =>
    let resto := procesarCanales e s total suma invR fis cs bs
    if e.presente c.canal s then
      let fb := filaCanal e s total suma invR fis c b
      (fb.1 :: resto.1, fb.2 :: resto.2)
    else (resto.1, b :: resto.2)

/-- `asignacion_total_semana` (line 2093). -/
def sumaAsignaciones : List Fila → ℤ
  | [] => 0
  | f :: t => f.asignacion_canal + sumaAsignaciones t

/-- `ventas_totales_semana` (line 2098): the calculation sales (0 for
current/future weeks) summed over the week's rows. -/
def sumaVentasCalculo : List Fila → ℚ
  | [] => 0
  | f :: t => f.ventas_reales + sumaVentasCalculo t

/-- One week of the per-SKU loop (lines 1958-2116): resolve the inventory,
compute the week's total, run the channel loop, update the carry-forward and
accumulate the week's assignment when the week is current or future. -/
def procesarSemana (e : Entrada) (st : Estado) (s : ℕ) : Estado × List Fila :=
  if hayFilaSemana e s e.canales then
    let invR := inventarioInicialReal (e.inventario_inicial_db s)
      st.inventario_disponible_semana_anterior
    let fis := inventarioFisicoSemana e st s
    let total := inventarioSemanalTotal e st s
    let suma := sumaBolsasPositivas st.bolsas
    let res := procesarCanales e s total suma invR fis e.canales st.bolsas
    (⟨max 0 (fis - sumaVentasCalculo res.1),
      if e.semana_actual ≤ s then
        st.asignaciones_acumuladas + sumaAsignaciones res.1
      else st.asignaciones_acumuladas,
      res.2⟩, res.1)
  else (st, [])

/-- The week loop: fold `procesarSemana` over a week list, concatenating the
rows in order. -/
def correr (e : Entrada) : Estado → List ℕ → Estado × List Fila
  | st, [] => (st, [])
  | st, s :: resto =>
    let paso := procesarSemana e st s
    let siguiente := correr e paso.1 resto
    (siguiente.1, paso.2 ++ siguiente.2)

/-- Insertion into an ascending list, for `ordenar`. -/
def insertarOrdenado (n : ℕ) : List ℕ → List ℕ
  | [] => [n]
  | m :: t => if n ≤ m then n :: m :: t else m :: insertarOrdenado n t

/-- Python's `sorted` on the configured week numbers (line 1958): ascending
numeric order. -/
def ordenar : List ℕ → List ℕ
  | [] => []
  | h :: t => insertarOrdenado h (ordenar t)

/-- The initial bolsas: each channel's monthly quota (line 1952). -/
def bolsasIniciales : List CanalDatos → List ℚ
  | [] => []
  | c :: t => c.cupo_mensual_canal :: bolsasIniciales t

/-- The state at the start of a SKU's pass (lines 1927-1955). -/
def estadoInicial (e : Entrada) : Estado := ⟨0, 0, bolsasIniciales e.canales⟩

/-- One SKU's full pass: the weeks in the order `sorted(config['semanas'])`. -/
def procesarSku (e : Entrada) : List Fila :=
  (correr e (estadoInicial e) (ordenar e.semanas)).2

/-- `tolerancia` (line 2136): `max(cupo_mensual * 0.01, 10)`. -/
def toleranciaSku (cupo : ℚ) : ℚ := max (cupo * (1/100)) 10

/-- The reconciliation validator for one SKU (lines 2118-2141): it groups the
result by `sku` alone, sums `asignacion_canal` over ALL rows of the SKU
(all channels, all weeks), takes `cupo_mensual_total` from the SKU's first
row, and warns when the absolute difference exceeds the tolerance.  The
warning (here the pair of expected quota and actual total) is printed, never
raised. -/
def advertenciaSku (filas : List Fila) : Option (ℚ × ℤ) :=
  match filas with
  | [] => none
  | f :: _ =>
    if toleranciaSku f.cupo_mensual_total <
        |(sumaAsignaciones filas : ℚ) - f.cupo_mensual_total| then
      some (f.cupo_mensual_total, sumaAsignaciones filas)
    else none

/-- The full function for one SKU: the plan and the validator's warning; the
plan is built before the validation and returned regardless of it (line 2143
returns `df_resultado` unconditionally). -/
def calcularAsignacionSemanalSecuencial (e : Entrada) : List Fila × Option (ℚ × ℤ) :=
  (procesarSku e, advertenciaSku (procesarSku e))

/-- Sum of the assigned units of one channel across a row list. -/
def totalAsignadoCanal (id : ℕ) : List Fila → ℤ
  | [] => 0
  | f :: t => (if f.canal = id then f.asignacion_canal else 0) + totalAsignadoCanal id t

/-- The `inventario_inicial` column value produced by the SQL query's
`COALESCE(inv_s.inventario_inicial, 0)` (line 1857): the snapshot's value when
a historical snapshot exists for the week, 0 when none does. -/
def inventarioInicialSegunSnapshot (snap : Option ℚ) : ℚ := snap.getD 0

/-- The configured week numbers of 'Enero 2026' (line 1747). -/
def semanasEnero2026 : List ℕ := [53, 1, 2, 3, 4]

/-- The configured week start dates of 'Enero 2026' (line 1749), encoded as
yyyymmdd numbers, in the order of `semanasEnero2026`: week 53 starts
2025-12-28, weeks 1-4 start on the following Sundays. -/
def fechasInicioEnero2026 : List ℕ := [20251228, 20260104, 20260111, 20260118, 20260125]

/-- Plain sum of a list of rationals. -/
def sumaLista : List ℚ → ℚ
  | [] => 0
  | b :: t => b + sumaLista t

/-- The bolsas, as they stand at the start of a week, of exactly the channels
that have a row in week `s`, in channel order: the list of
balances-before-assignment paired positionally with the rows the week
produces. -/
def bolsasDePresentes (e : Entrada) (s : ℕ) : List CanalDatos → List ℚ → List ℚ
  | [], _ => []
  | _ :: _, [] => []
  | c :: cs, b :: bs =>
    if e.presente c.canal s then b :: bolsasDePresentes e s cs bs
    else bolsasDePresentes e s cs bs

/-- Two channels with quota 100 each; channel 0 sells its whole quota (100
units) in week 1, which is closed (`semana_actual = 2`); plenty of physical
stock (1000), so no cap binds.  Channel 0 ends the month with 50 assigned
units against its quota of 100, channel 1 with 150. -/
def entradaDesvioCanal : Entrada :=
  { canales := [⟨0, 100, 1⟩, ⟨1, 100, 1⟩]
    presente := fun _ _ => true
    ventas_reales_bd := fun c s => if c = 0 ∧ s = 1 then 100 else 0
    inventario_inicial_db := fun s => if s = 1 then 1000 else 0
    arribos_esperados := fun _ => 0
    forecast_b2b := fun _ => 0
    cupo_mensual_total_df := 200
    semanas := [1, 2]
    factores := fun _ => 1
    semana_actual := 2 }

/-- Two channels with quota 10 each; channel 0 sells 200 units (far beyond the
whole SKU quota of 20) in closed week 1, so the remaining pool of week 2 is
negative and the engine assigns -180 units to channel 1. -/
def entradaSobreventa : Entrada :=
  { canales := [⟨0, 10, 1⟩, ⟨1, 10, 1⟩]
    presente := fun _ _ => true
    ventas_reales_bd := fun c s => if c = 0 ∧ s = 1 then 200 else 0
    inventario_inicial_db := fun s => if s = 1 then 100 else 0
    arribos_esperados := fun _ => 0
    forecast_b2b := fun _ => 0
    cupo_mensual_total_df := 20
    semanas := [1, 2]
    factores := fun _ => 1
    semana_actual := 2 }

/-- Channel 0 starts the month with a zero quota, hence a zero bolsa. -/
def entradaCanalAgotado : Entrada :=
  { canales := [⟨0, 0, 0⟩, ⟨1, 10, 1⟩]
    presente := fun _ _ => true
    ventas_reales_bd := fun _ _ => 0
    inventario_inicial_db := fun _ => 50
    arribos_esperados := fun _ => 0
    forecast_b2b := fun _ => 0
    cupo_mensual_total_df := 10
    semanas := [1, 2]
    factores := fun _ => 1
    semana_actual := 1 }

/-- A well-behaved month: two channels (600/400), four equal-factor weeks, all
of them current or future, no sales yet. -/
def entradaBenigna : Entrada :=
  { canales := [⟨0, 600, 1⟩, ⟨1, 400, 1⟩]
    presente := fun _ _ => true
    ventas_reales_bd := fun _ _ => 0
    inventario_inicial_db := fun _ => 0
    arribos_esperados := fun _ => 0
    forecast_b2b := fun _ => 0
    cupo_mensual_total_df := 1000
    semanas := [1, 2, 3, 4]
    factores := fun _ => 1
    semana_actual := 1 }

/-- A single concrete output row, used to instantiate the validator: its
SKU-level quota column says 100 while the row's assignment is 200. -/
def filaEjemplo : Fila :=
  ⟨1, 0, 0, 0, 0, 0, 100, 100, 100, 200, 0, 0, 1⟩

/-! ## Basic lemmas about the rounding function and the list helpers -/

theorem abs_pyRound_sub (x : ℚ) : |(pyRound x : ℚ) - x| ≤ 1/2 := by
  have h1 : (⌊x⌋ : ℚ) ≤ x := Int.floor_le x
  have h2 : x < ⌊x⌋ + 1 := Int.lt_floor_add_one x
  unfold pyRound
  split_ifs with ha hb hc <;>
    (rw [abs_le]; constructor <;> push_cast <;> linarith)

theorem pyRound_nonneg (x : ℚ) (h : 0 ≤ x) : 0 ≤ pyRound x := by
  have h0 : (0 : ℤ) ≤ ⌊x⌋ := Int.le_floor.mpr (by exact_mod_cast h)
  unfold pyRound
  split_ifs <;> omega

theorem pyRound_le_int (x : ℚ) (b : ℤ) (h : x ≤ b) : pyRound x ≤ b := by
  have hfb : ⌊x⌋ ≤ b := by
    have := Int.floor_le_floor h
    rwa [Int.floor_intCast] at this
  have hfl : (⌊x⌋ : ℚ) ≤ x := Int.floor_le x
  unfold pyRound
  split_ifs with ha hb hc
  · exact hfb
  · have hne : ⌊x⌋ ≠ b := by
      intro he
      rw [he] at hfl
      have : x - ⌊x⌋ ≤ 0 := by rw [he]; push_cast; linarith
      linarith
    omega
  · exact hfb
  · have hne : ⌊x⌋ ≠ b := by
      intro he
      have hhalf : ¬ x - ⌊x⌋ < 1/2 := ha
      rw [he] at hfl
      have : x - ⌊x⌋ ≤ 0 := by rw [he]; push_cast; linarith
      push_neg at hhalf
      linarith
    omega

theorem pyRound_cero : pyRound 0 = 0 := by
  unfold pyRound
  norm_num

theorem sumaAsignaciones_append (l₁ l₂ : List Fila) :
    sumaAsignaciones (l₁ ++ l₂) = sumaAsignaciones l₁ + sumaAsignaciones l₂ := by
  induction l₁ with
  | nil => simp [sumaAsignaciones]
  | cons f t ih => simp [sumaAsignaciones, ih]; omega

theorem sumaBolsasPositivas_nonneg (l : List ℚ) : 0 ≤ sumaBolsasPositivas l := by
  induction l with
  | nil => simp [sumaBolsasPositivas]
  | cons b t ih =>
    simp only [sumaBolsasPositivas]
    split_ifs with h
    · linarith
    · linarith

theorem sumaBolsasPositivas_eq_sumaLista (l : List ℚ) (h : ∀ b ∈ l, 0 ≤ b) :
    sumaBolsasPositivas l = sumaLista l := by
  induction l with
  | nil => rfl
  | cons b t ih =>
    have hb := h b (by simp)
    have ht : ∀ x ∈ t, 0 ≤ x := fun x hx => h x (by simp [hx])
    simp only [sumaBolsasPositivas, sumaLista, ih ht]
    split_ifs with hpos
    · rfl
    · have : b = 0 := le_antisymm (not_lt.mp hpos) hb
      rw [this]

theorem sumaLista_bolsasIniciales (cs : List CanalDatos) :
    sumaLista (bolsasIniciales cs) = sumaCupos cs := by
  induction cs with
  | nil => rfl
  | cons c t ih => simp [sumaLista, bolsasIniciales, sumaCupos, ih]

theorem correr_append (e : Entrada) (st : Estado) (l₁ l₂ : List ℕ) :
    correr e st (l₁ ++ l₂) =
      ((correr e (correr e st l₁).1 l₂).1,
        (correr e st l₁).2 ++ (correr e (correr e st l₁).1 l₂).2) := by
  induction l₁ generalizing st with
  | nil => simp [correr]
  | cons s t ih => simp [correr, ih]

/-! ## C4: processing order versus chronological order -/

/-- Claim C4: the engine is supposed to process each month's weeks in
chronological order of their start dates, but `sorted(config['semanas'])`
sorts numerically: for 'Enero 2026' the configured weeks `[53, 1, 2, 3, 4]`
are listed in ascending start-date order (sorting the dates is the identity),
yet the engine processes them as `[1, 2, 3, 4, 53]`, i.e. week 53
(2025-12-28 to 2026-01-03, the chronologically first week) is processed
last. -/
theorem c4_orden_no_cronologico :
    ordenar semanasEnero2026 = [1, 2, 3, 4, 53] ∧
    ordenar fechasInicioEnero2026 = fechasInicioEnero2026 ∧
    ordenar semanasEnero2026 ≠ semanasEnero2026 := by decide

/-! ## C8: physical availability resolution -/

/-- Counterexample to claim C8 as stated: a historical snapshot that exists
and records 0 units is indistinguishable from a missing snapshot after the
query's `COALESCE(.., 0)`, and the engine's test `inv_inicial_db > 0` then
uses the carried-forward balance (here 50) instead of the snapshot's
`initial + arrivals - reserved = 0`. -/
theorem c8_contraejemplo :
    inventarioFisicoDisponible (inventarioInicialSegunSnapshot (some 0)) 50 0 0 = 50 ∧
    inventarioFisicoDisponible (inventarioInicialSegunSnapshot (some 0)) 50 0 0 ≠
      max 0 (inventarioInicialSegunSnapshot (some 0) + 0 - 0) := by
  norm_num [inventarioFisicoDisponible, inventarioInicialReal,
    inventarioInicialSegunSnapshot, max_def]

/-- Claim C8 as amended: the engine keys the choice on the positivity of the
week's (coalesced) `inventario_inicial` value, not on snapshot existence: a
positive value is used directly (`max 0 (initial + arrivals - reserved)`), a
value that is zero or negative — including an existing snapshot recording
zero — is replaced by the carried-forward balance; the result is always
nonnegative. -/
theorem c8_resolucion_enmendada (snap : Option ℚ) (anterior arr fb : ℚ) :
    (0 < inventarioInicialSegunSnapshot snap →
      inventarioFisicoDisponible (inventarioInicialSegunSnapshot snap) anterior arr fb =
        max 0 (inventarioInicialSegunSnapshot snap + arr - fb)) ∧
    (inventarioInicialSegunSnapshot snap ≤ 0 →
      inventarioFisicoDisponible (inventarioInicialSegunSnapshot snap) anterior arr fb =
        max 0 (anterior + arr - fb)) ∧
    0 ≤ inventarioFisicoDisponible (inventarioInicialSegunSnapshot snap) anterior arr fb := by
  refine ⟨fun h => ?_, fun h => ?_, le_max_left _ _⟩
  · rw [inventarioFisicoDisponible, inventarioInicialReal, if_pos h]
  · rw [inventarioFisicoDisponible, inventarioInicialReal, if_neg (not_lt.mpr h)]

/-! ## C2: the weekly-total policy -/

/-- Claim C2: the total a week distributes (`inventario_semanal_total`,
the amount `procesarSemana` hands to the channel loop) is the full
theoretical amount for a current or future week, and
`min(physical availability, theoretical amount, sum of channel balances)`
for a closed week (balances are nonnegative in any reachable state, so the
source's sum over the strictly positive bolsas is the plain sum). -/
theorem c2_politica_total_semanal (e : Entrada) (st : Estado) (s : ℕ)
    (hb : ∀ b ∈ st.bolsas, 0 ≤ b) :
    (e.semana_actual ≤ s →
      inventarioSemanalTotal e st s = inventarioTeoricoSemana e st s) ∧
    (s < e.semana_actual →
      inventarioSemanalTotal e st s =
        min (min (inventarioFisicoSemana e st s) (inventarioTeoricoSemana e st s))
          (sumaLista st.bolsas)) := by
  constructor
  · intro h
    simp [inventarioSemanalTotal, h]
  · intro h
    rw [inventarioSemanalTotal, if_neg (by omega),
      sumaBolsasPositivas_eq_sumaLista _ hb]

theorem c2_politica_total_semanal_testigo :
    (∀ b ∈ (estadoInicial entradaSobreventa).bolsas, 0 ≤ b) ∧
    inventarioSemanalTotal entradaSobreventa (estadoInicial entradaSobreventa) 1 =
      min (min (inventarioFisicoSemana entradaSobreventa (estadoInicial entradaSobreventa) 1)
        (inventarioTeoricoSemana entradaSobreventa (estadoInicial entradaSobreventa) 1))
        (sumaLista (estadoInicial entradaSobreventa).bolsas) :=
  ⟨by decide,
    (c2_politica_total_semanal entradaSobreventa (estadoInicial entradaSobreventa) 1
      (by decide)).2 (by decide)⟩

/-! ## C5: the reconciliation validator -/

/-- Counterexample to claim C5 as stated: the validator raises no warning on
the plan of `entradaDesvioCanal` even though channel 0's assigned total (50)
misses its channel quota (100) by 50, far beyond the channel-level tolerance
`max(100 * 1%, 10) = 10` — because the source validator only compares the
SKU-level sum (200) with the SKU-level quota column (200). -/
theorem c5_contraejemplo :
    advertenciaSku (procesarSku entradaDesvioCanal) = none ∧
    toleranciaSku 100 <
      |(totalAsignadoCanal 0 (procesarSku entradaDesvioCanal) : ℚ) - 100| := by
  norm_num [entradaDesvioCanal, procesarSku, correr, procesarSemana, procesarCanales,
    filaCanal, estadoInicial, bolsasIniciales, ordenar, insertarOrdenado, hayFilaSemana,
    inventarioSemanalTotal, inventarioTeoricoSemana, inventarioDisponibleMes,
    inventarioFisicoSemana, inventarioFisicoDisponible, inventarioInicialReal,
    proporcionSemana, sumaFactoresRestantes, ventasRealesPasadas, ventasSemanaBD,
    sumaBolsasPositivas, sumaVentasCalculo, sumaAsignaciones, sumaCupos,
    cupoMensualTotalSku, pyRound, advertenciaSku, toleranciaSku, totalAsignadoCanal,
    min_def, max_def, abs_eq_max_neg]

/-- Claim C5 as amended: the validator compares, per SKU (not per channel),
the sum of `asignacion_canal` over all rows with the SKU's
`cupo_mensual_total` column of the first row, with tolerance
`max(total quota * 1%, 10)`; exceeding produces a warning carrying the
expected quota and actual total (printed, non-fatal), and the plan is
returned unchanged alongside it. -/
theorem c5_validador_enmendado (filas : List Fila) (f : Fila) (resto : List Fila)
    (h : filas = f :: resto) :
    advertenciaSku filas =
      (if toleranciaSku f.cupo_mensual_total <
          |(sumaAsignaciones filas : ℚ) - f.cupo_mensual_total| then
        some (f.cupo_mensual_total, sumaAsignaciones filas) else none) ∧
    advertenciaSku ([] : List Fila) = none ∧
    ∀ e : Entrada, calcularAsignacionSemanalSecuencial e =
      (procesarSku e, advertenciaSku (procesarSku e)) := by
  subst h
  exact ⟨rfl, rfl, fun _ => rfl⟩

theorem c5_validador_enmendado_testigo :
    advertenciaSku [filaEjemplo] =
      (if toleranciaSku filaEjemplo.cupo_mensual_total <
          |(sumaAsignaciones [filaEjemplo] : ℚ) - filaEjemplo.cupo_mensual_total| then
        some (filaEjemplo.cupo_mensual_total, sumaAsignaciones [filaEjemplo]) else none) ∧
    advertenciaSku ([] : List Fila) = none ∧
    ∀ e : Entrada, calcularAsignacionSemanalSecuencial e =
      (procesarSku e, advertenciaSku (procesarSku e)) :=
  c5_validador_enmendado [filaEjemplo] filaEjemplo [] rfl

/-! ## C1: quota conservation -/

/-- Counterexample to claim C1 as stated: in `entradaDesvioCanal` the only
closed week is week 1 (week 2 is current), and week 1's theoretical amount is
below both the physical availability and the balance sum, so no physical cap
bound any week; yet channel 0 (monthly quota 100) receives 50 assigned units
over the month, a deviation of 50 beyond the tolerance `max(100 * 1%, 10) = 10`:
conservation does not hold per channel, because a channel whose real sales
eat its bolsa loses its share of later weeks to the other channels. -/
theorem c1_contraejemplo :
    (1 < entradaDesvioCanal.semana_actual ∧ entradaDesvioCanal.semana_actual ≤ 2) ∧
    inventarioTeoricoSemana entradaDesvioCanal (estadoInicial entradaDesvioCanal) 1 ≤
      inventarioFisicoSemana entradaDesvioCanal (estadoInicial entradaDesvioCanal) 1 ∧
    inventarioTeoricoSemana entradaDesvioCanal (estadoInicial entradaDesvioCanal) 1 ≤
      sumaLista (estadoInicial entradaDesvioCanal).bolsas ∧
    toleranciaSku 100 <
      |(totalAsignadoCanal 0 (procesarSku entradaDesvioCanal) : ℚ) - 100| := by
  norm_num [entradaDesvioCanal, procesarSku, correr, procesarSemana, procesarCanales,
    filaCanal, estadoInicial, bolsasIniciales, ordenar, insertarOrdenado, hayFilaSemana,
    inventarioSemanalTotal, inventarioTeoricoSemana, inventarioDisponibleMes,
    inventarioFisicoSemana, inventarioFisicoDisponible, inventarioInicialReal,
    proporcionSemana, sumaFactoresRestantes, ventasRealesPasadas, ventasSemanaBD,
    sumaBolsasPositivas, sumaVentasCalculo, sumaAsignaciones, sumaCupos, sumaLista,
    cupoMensualTotalSku, pyRound, toleranciaSku, totalAsignadoCanal,
    min_def, max_def, abs_eq_max_neg]

/-! ## C3: non-negativity and capacity -/

/-- Counterexample to claim C3 as stated: in `entradaSobreventa` the closed
week's real sales (200) exceed the whole monthly quota (20), the remaining
pool of the current week is negative, and the engine assigns a negative
number of units (-180) to channel 1. -/
theorem c3_contraejemplo :
    ∃ fila ∈ procesarSku entradaSobreventa, fila.asignacion_canal < 0 := by
  have hmap : (procesarSku entradaSobreventa).map (fun f => f.asignacion_canal) =
      [5, 5, 0, -180] := by
    norm_num [entradaSobreventa, procesarSku, correr, procesarSemana, procesarCanales,
      filaCanal, estadoInicial, bolsasIniciales, ordenar, insertarOrdenado, hayFilaSemana,
      inventarioSemanalTotal, inventarioTeoricoSemana, inventarioDisponibleMes,
      inventarioFisicoSemana, inventarioFisicoDisponible, inventarioInicialReal,
      proporcionSemana, sumaFactoresRestantes, ventasRealesPasadas, ventasSemanaBD,
      sumaBolsasPositivas, sumaVentasCalculo, sumaAsignaciones, sumaCupos,
      cupoMensualTotalSku, pyRound, min_def, max_def]
  have hmem : (-180 : ℤ) ∈ (procesarSku entradaSobreventa).map (fun f => f.asignacion_canal) := by
    rw [hmap]
    norm_num
  obtain ⟨fila, hf, he⟩ := List.mem_map.mp hmem
  exact ⟨fila, hf, by rw [he]; omega⟩

theorem filaCanal_cota (e : Entrada) (s : ℕ) (total suma invR fis : ℚ) (c : CanalDatos)
    (b : ℚ) (hb : 0 ≤ b) (hden : b.den = 1) (ht : 0 ≤ total) (hs : 0 ≤ suma) :
    0 ≤ (filaCanal e s total suma invR fis c b).1.asignacion_canal ∧
    ((filaCanal e s total suma invR fis c b).1.asignacion_canal : ℚ) ≤ b := by
  have hasig : (filaCanal e s total suma invR fis c b).1.asignacion_canal =
      pyRound (min (total * (if 0 < suma then b / suma else 0)) b) := rfl
  have hfac : (0 : ℚ) ≤ (if 0 < suma then b / suma else 0) := by
    split_ifs with h
    · exact div_nonneg hb (le_of_lt h)
    · exact le_refl 0
  have hx0 : 0 ≤ min (total * (if 0 < suma then b / suma else 0)) b :=
    le_min (mul_nonneg ht hfac) hb
  have hxb : min (total * (if 0 < suma then b / suma else 0)) b ≤ b := min_le_right _ _
  have hbnum : (b.num : ℚ) = b := Rat.coe_int_num_of_den_eq_one hden
  constructor
  · rw [hasig]
    exact pyRound_nonneg _ hx0
  · rw [hasig]
    have h1 : pyRound (min (total * (if 0 < suma then b / suma else 0)) b) ≤ b.num :=
      pyRound_le_int _ _ (by rw [hbnum]; exact hxb)
    calc ((pyRound (min (total * (if 0 < suma then b / suma else 0)) b) : ℤ) : ℚ)
        ≤ (b.num : ℚ) := by exact_mod_cast h1
      _ = b := hbnum

theorem procesarCanales_cota (e : Entrada) (s : ℕ) (total suma invR fis : ℚ)
    (ht : 0 ≤ total) (hs : 0 ≤ suma) :
    ∀ (cs : List CanalDatos) (bs : List ℚ), (∀ b ∈ bs, 0 ≤ b) → (∀ b ∈ bs, b.den = 1) →
    List.Forall₂ (fun (fila : Fila) (b : ℚ) =>
        0 ≤ fila.asignacion_canal ∧ (fila.asignacion_canal : ℚ) ≤ b)
      (procesarCanales e s total suma invR fis cs bs).1
      (bolsasDePresentes e s cs bs) := by
  intro cs
  induction cs with
  | nil =>
    intro bs _ _
    simp [procesarCanales, bolsasDePresentes]
  | cons c cst ih =>
    intro bs hb hden
    cases bs with
    | nil => simp [procesarCanales, bolsasDePresentes]
    | cons b bst =>
      have hbh := hb b (by simp)
      have hdh := hden b (by simp)
      have hbt : ∀ x ∈ bst, 0 ≤ x := fun x hx => hb x (by simp [hx])
      have hdt : ∀ x ∈ bst, x.den = 1 := fun x hx => hden x (by simp [hx])
      by_cases hp : e.presente c.canal s = true
      · simp only [procesarCanales, bolsasDePresentes, hp, if_true]
        exact List.Forall₂.cons
          (filaCanal_cota e s total suma invR fis c b hbh hdh ht hs) (ih bst hbt hdt)
      · simp only [procesarCanales, bolsasDePresentes, hp, if_false]
        exact ih bst hbt hdt

theorem bolsasDePresentes_vacia (e : Entrada) (s : ℕ) :
    ∀ (cs : List CanalDatos) (bs : List ℚ), hayFilaSemana e s cs = false →
    bolsasDePresentes e s cs bs = [] := by
  intro cs
  induction cs with
  | nil => intro bs _; cases bs <;> rfl
  | cons c cst ih =>
    intro bs h
    rw [hayFilaSemana, Bool.or_eq_false_iff] at h
    cases bs with
    | nil => rfl
    | cons b bst => simp only [bolsasDePresentes, h.1, if_false]; exact ih bst h.2

/-- Claim C3 as amended: pair each row a week produces with the bolsa its
channel had at the start of that week (`bolsasDePresentes`).  Whenever the
balances are nonnegative whole numbers (monthly quotas and real sales are
whole units) and the week's distributable total is nonnegative (true whenever
the closed weeks' real sales plus the accumulated assignments do not exceed
the monthly quota; `entradaSobreventa` shows the total, and then the
assignment, can go negative otherwise), every produced row satisfies
`0 ≤ asignacion_canal ≤ balance-before-assignment`. -/
theorem c3_no_negatividad_enmendada (e : Entrada) (st : Estado) (s : ℕ)
    (hb : ∀ b ∈ st.bolsas, 0 ≤ b) (hden : ∀ b ∈ st.bolsas, b.den = 1)
    (ht : 0 ≤ inventarioSemanalTotal e st s) :
    List.Forall₂ (fun (fila : Fila) (b : ℚ) =>
        0 ≤ fila.asignacion_canal ∧ (fila.asignacion_canal : ℚ) ≤ b)
      (procesarSemana e st s).2 (bolsasDePresentes e s e.canales st.bolsas) := by
  rw [procesarSemana]
  by_cases hsem : hayFilaSemana e s e.canales = true
  · simp only [hsem, if_true]
    exact procesarCanales_cota e s (inventarioSemanalTotal e st s)
      (sumaBolsasPositivas st.bolsas)
      (inventarioInicialReal (e.inventario_inicial_db s)
        st.inventario_disponible_semana_anterior)
      (inventarioFisicoSemana e st s) ht (sumaBolsasPositivas_nonneg _)
      e.canales st.bolsas hb hden
  · simp only [hsem, if_false]
    rw [bolsasDePresentes_vacia e s e.canales st.bolsas (by simpa using hsem)]
    exact List.Forall₂.nil

theorem c3_no_negatividad_enmendada_testigo :
    (∀ b ∈ (estadoInicial entradaBenigna).bolsas, 0 ≤ b) ∧
    (∀ b ∈ (estadoInicial entradaBenigna).bolsas, b.den = 1) ∧
    List.Forall₂ (fun (fila : Fila) (b : ℚ) =>
        0 ≤ fila.asignacion_canal ∧ (fila.asignacion_canal : ℚ) ≤ b)
      (procesarSemana entradaBenigna (estadoInicial entradaBenigna) 1).2
      (bolsasDePresentes entradaBenigna 1 entradaBenigna.canales
        (estadoInicial entradaBenigna).bolsas) :=
  ⟨by decide, by decide,
    c3_no_negatividad_enmendada entradaBenigna (estadoInicial entradaBenigna) 1
      (by decide) (by decide)
      (by norm_num [entradaBenigna, estadoInicial, bolsasIniciales,
        inventarioSemanalTotal, inventarioTeoricoSemana, inventarioDisponibleMes,
        proporcionSemana, sumaFactoresRestantes, ventasRealesPasadas, ventasSemanaBD,
        sumaCupos, cupoMensualTotalSku])⟩

/-! ## C10: balances never go negative -/

theorem bolsas_nonneg_procesarCanales (e : Entrada) (s : ℕ) (total suma invR fis : ℚ) :
    ∀ (cs : List CanalDatos) (bs : List ℚ), (∀ b ∈ bs, 0 ≤ b) →
    ∀ b ∈ (procesarCanales e s total suma invR fis cs bs).2, 0 ≤ b := by
  intro cs
  induction cs with
  | nil => intro bs _ b hbmem; simp [procesarCanales] at hbmem
  | cons c cst ih =>
    intro bs hb
    cases bs with
    | nil => intro b hbmem; simp [procesarCanales] at hbmem
    | cons b bst =>
      by_cases hp : e.presente c.canal s = true
      · simp only [procesarCanales, hp, if_true]
        intro x hx
        rcases List.mem_cons.mp hx with h | h
        · rw [h]; exact le_max_left _ _
        · exact ih bst (fun y hy => hb y (by simp [hy])) x h
      · simp only [procesarCanales, hp, if_false]
        intro x hx
        rcases List.mem_cons.mp hx with h | h
        · rw [h]; exact hb b (by simp)
        · exact ih bst (fun y hy => hb y (by simp [hy])) x h

theorem bolsas_nonneg_paso (e : Entrada) (st : Estado) (s : ℕ)
    (hb : ∀ b ∈ st.bolsas, 0 ≤ b) :
    ∀ b ∈ (procesarSemana e st s).1.bolsas, 0 ≤ b := by
  rw [procesarSemana]
  by_cases hsem : hayFilaSemana e s e.canales = true
  · simp only [hsem, if_true]
    exact bolsas_nonneg_procesarCanales e s _ _ _ _ e.canales st.bolsas hb
  · simp only [hsem, if_false]
    exact hb

theorem bolsas_nonneg_correr (e : Entrada) :
    ∀ (l : List ℕ) (st : Estado), (∀ b ∈ st.bolsas, 0 ≤ b) →
    ∀ b ∈ (correr e st l).1.bolsas, 0 ≤ b := by
  intro l
  induction l with
  | nil => intro st hb; exact hb
  | cons s t ih =>
    intro st hb
    exact ih (procesarSemana e st s).1 (bolsas_nonneg_paso e st s hb)

theorem bolsasIniciales_nonneg (cs : List CanalDatos)
    (h : ∀ c ∈ cs, 0 ≤ c.cupo_mensual_canal) :
    ∀ b ∈ bolsasIniciales cs, 0 ≤ b := by
  induction cs with
  | nil => intro b hb; simp [bolsasIniciales] at hb
  | cons c t ih =>
    intro b hb
    rcases List.mem_cons.mp hb with h1 | h1
    · rw [h1]; exact h c (by simp)
    · exact ih (fun x hx => h x (by simp [hx])) b h1

/-- Claim C10: with nonnegative monthly quotas, every channel balance in every
state the engine reaches (after the consumption-bookkeeping of any number of
processed weeks) is nonnegative: the update `max(0, bolsa - ventas)` floors at
zero even when a closed week's real sales exceed the remaining balance, and no
other operation writes the balances. -/
theorem c10_bolsa_no_negativa (e : Entrada)
    (hcup : ∀ c ∈ e.canales, 0 ≤ c.cupo_mensual_canal) (l : List ℕ) :
    ∀ b ∈ (correr e (estadoInicial e) l).1.bolsas, 0 ≤ b :=
  bolsas_nonneg_correr e l (estadoInicial e) (bolsasIniciales_nonneg e.canales hcup)

theorem c10_bolsa_no_negativa_testigo :
    ∃ b ∈ (correr entradaSobreventa (estadoInicial entradaSobreventa)
      (ordenar entradaSobreventa.semanas)).1.bolsas, 0 ≤ b := by
  have hb : (correr entradaSobreventa (estadoInicial entradaSobreventa)
      (ordenar entradaSobreventa.semanas)).1.bolsas = [0, 10] := by
    norm_num [entradaSobreventa, correr, procesarSemana, procesarCanales,
      filaCanal, estadoInicial, bolsasIniciales, ordenar, insertarOrdenado, hayFilaSemana,
      inventarioSemanalTotal, inventarioTeoricoSemana, inventarioDisponibleMes,
      inventarioFisicoSemana, inventarioFisicoDisponible, inventarioInicialReal,
      proporcionSemana, sumaFactoresRestantes, ventasRealesPasadas, ventasSemanaBD,
      sumaBolsasPositivas, sumaVentasCalculo, sumaAsignaciones, sumaCupos,
      cupoMensualTotalSku, pyRound, min_def, max_def]
  refine ⟨10, ?_, ?_⟩
  · rw [hb]
    norm_num
  · exact c10_bolsa_no_negativa entradaSobreventa (by decide)
      (ordenar entradaSobreventa.semanas) 10 (by rw [hb]; norm_num)

/-! ## C7: an exhausted bolsa receives nothing from then on -/

theorem canales_cero (e : Entrada) (s : ℕ) (total suma invR fis : ℚ) (id : ℕ)
    (hv : ∀ c sp, 0 ≤ e.ventas_reales_bd c sp) :
    ∀ (cs : List CanalDatos) (bs : List ℚ),
      (∀ p ∈ cs.zip bs, p.1.canal = id → p.2 = 0) →
      (∀ fila ∈ (procesarCanales e s total suma invR fis cs bs).1,
        fila.canal = id → fila.asignacion_canal = 0) ∧
      (∀ p ∈ cs.zip (procesarCanales e s total suma invR fis cs bs).2,
        p.1.canal = id → p.2 = 0) := by
  intro cs
  induction cs with
  | nil =>
    intro bs _
    constructor
    · intro fila hf; simp [procesarCanales] at hf
    · intro p hp; simp [procesarCanales] at hp
  | cons c cst ih =>
    intro bs hz
    cases bs with
    | nil =>
      constructor
      · intro fila hf; simp [procesarCanales] at hf
      · intro p hp; simp [procesarCanales] at hp
    | cons b bst =>
      have hzh : c.canal = id → b = 0 := hz (c, b) (by simp)
      have hzt : ∀ p ∈ cst.zip bst, p.1.canal = id → p.2 = 0 :=
        fun p hp => hz p (by simp [List.zip_cons_cons, hp])
      obtain ⟨ihf, ihb⟩ := ih bst hzt
      have hvc : (0 : ℚ) ≤ (if s < e.semana_actual then e.ventas_reales_bd c.canal s else 0) := by
        split_ifs
        · exact hv c.canal s
        · exact le_refl 0
      by_cases hp : e.presente c.canal s = true
      · simp only [procesarCanales, hp, if_true]
        constructor
        · intro fila hf
          rcases List.mem_cons.mp hf with h1 | h1
          · intro hcan
            have hcid : c.canal = id := by
              have : fila.canal = c.canal := by rw [h1]; rfl
              rw [← this, hcan]
            have hb0 : b = 0 := hzh hcid
            rw [h1]
            show pyRound (min (total * (if 0 < suma then b / suma else 0)) b) = 0
            rw [hb0]
            have hfac : (if 0 < suma then (0 : ℚ) / suma else 0) = 0 := by
              split_ifs
              · exact zero_div suma
              · rfl
            rw [hfac, mul_zero, min_self, pyRound_cero]
          · exact ihf fila h1
        · intro p hp2
          rcases List.mem_cons.mp hp2 with h1 | h1
          · intro hcan
            have hb0 : b = 0 := hzh (by rw [h1] at hcan; exact hcan)
            rw [h1]
            show max 0 (b - (if s < e.semana_actual then e.ventas_reales_bd c.canal s else 0)) = 0
            rw [hb0]
            exact max_eq_left (by linarith)
          · exact ihb p h1
      · simp only [procesarCanales, hp, if_false]
        constructor
        · exact ihf
        · intro p hp2
          rcases List.mem_cons.mp hp2 with h1 | h1
          · intro hcan
            have hb0 : b = 0 := hzh (by rw [h1] at hcan; exact hcan)
            rw [h1]
            exact hb0
          · exact ihb p h1

theorem cero_paso (e : Entrada) (st : Estado) (s : ℕ) (id : ℕ)
    (hv : ∀ c sp, 0 ≤ e.ventas_reales_bd c sp)
    (hz : ∀ p ∈ e.canales.zip st.bolsas, p.1.canal = id → p.2 = 0) :
    (∀ fila ∈ (procesarSemana e st s).2, fila.canal = id → fila.asignacion_canal = 0) ∧
    (∀ p ∈ e.canales.zip (procesarSemana e st s).1.bolsas, p.1.canal = id → p.2 = 0) := by
  rw [procesarSemana]
  by_cases hsem : hayFilaSemana e s e.canales = true
  · simp only [hsem, if_true]
    exact canales_cero e s _ _ _ _ id hv e.canales st.bolsas hz
  · simp only [hsem, if_false]
    constructor
    · intro fila hf; simp at hf
    · exact hz

/-- Claim C7: if a channel's bolsa is 0 at the start of some week, every row
the engine produces for that channel from that week on carries
`asignacion_canal = 0` (its weekly factor is 0, the capped theoretical amount
is 0, and the bolsa stays 0 because sales are nonnegative). -/
theorem c7_agotamiento_detiene (e : Entrada) (id : ℕ) (st : Estado) (l : List ℕ)
    (hv : ∀ c sp, 0 ≤ e.ventas_reales_bd c sp)
    (hz : ∀ p ∈ e.canales.zip st.bolsas, p.1.canal = id → p.2 = 0) :
    ∀ fila ∈ (correr e st l).2, fila.canal = id → fila.asignacion_canal = 0 := by
  induction l generalizing st with
  | nil => intro fila hf; simp [correr] at hf
  | cons s t ih =>
    intro fila hf
    simp only [correr] at hf
    obtain ⟨hpaso, hsig⟩ := cero_paso e st s id hv hz
    rcases List.mem_append.mp hf with h1 | h1
    · exact hpaso fila h1
    · exact ih (procesarSemana e st s).1 hsig fila h1

theorem c7_agotamiento_detiene_testigo :
    ∃ fila ∈ (correr entradaCanalAgotado (estadoInicial entradaCanalAgotado)
      (ordenar entradaCanalAgotado.semanas)).2,
      fila.canal = 0 ∧ fila.asignacion_canal = 0 := by
  have h := c7_agotamiento_detiene entradaCanalAgotado 0 (estadoInicial entradaCanalAgotado)
    (ordenar entradaCanalAgotado.semanas) (fun _ _ => le_refl 0) (by decide)
  have hmap : ((correr entradaCanalAgotado (estadoInicial entradaCanalAgotado)
      (ordenar entradaCanalAgotado.semanas)).2).map (fun f => f.canal) = [0, 1, 0, 1] := by
    norm_num [entradaCanalAgotado, correr, procesarSemana, procesarCanales,
      filaCanal, estadoInicial, bolsasIniciales, ordenar, insertarOrdenado, hayFilaSemana,
      inventarioSemanalTotal, inventarioTeoricoSemana, inventarioDisponibleMes,
      inventarioFisicoSemana, inventarioFisicoDisponible, inventarioInicialReal,
      proporcionSemana, sumaFactoresRestantes, ventasRealesPasadas, ventasSemanaBD,
      sumaBolsasPositivas, sumaVentasCalculo, sumaAsignaciones, sumaCupos,
      cupoMensualTotalSku, pyRound, min_def, max_def]
  have hmem : (0:ℕ) ∈ ((correr entradaCanalAgotado (estadoInicial entradaCanalAgotado)
      (ordenar entradaCanalAgotado.semanas)).2).map (fun f => f.canal) := by
    rw [hmap]
    norm_num
  obtain ⟨fila, hm, hc⟩ := List.mem_map.mp hmem
  exact ⟨fila, hm, hc, h fila hm hc⟩

/-! ## C6: bolsas start at the quota and never increase -/

theorem bolsasIniciales_cupos :
    ∀ cs : List CanalDatos,
      List.Forall₂ (fun (b : ℚ) (c : CanalDatos) => b = c.cupo_mensual_canal)
        (bolsasIniciales cs) cs := by
  intro cs
  induction cs with
  | nil => exact List.Forall₂.nil
  | cons c t ih => exact List.Forall₂.cons rfl ih

theorem bolsas_le_procesarCanales (e : Entrada) (s : ℕ) (total suma invR fis : ℚ)
    (hv : ∀ c sp, 0 ≤ e.ventas_reales_bd c sp) :
    ∀ (cs : List CanalDatos) (bs : List ℚ), cs.length = bs.length →
      (∀ b ∈ bs, 0 ≤ b) →
      List.Forall₂ (· ≤ ·) (procesarCanales e s total suma invR fis cs bs).2 bs := by
  intro cs
  induction cs with
  | nil =>
    intro bs hlen _
    have : bs = [] := List.length_eq_zero.mp (by simpa using hlen.symm)
    rw [this]
    exact List.Forall₂.nil
  | cons c cst ih =>
    intro bs hlen hb
    cases bs with
    | nil => simp at hlen
    | cons b bst =>
      have hbh := hb b (by simp)
      have hbt : ∀ x ∈ bst, 0 ≤ x := fun x hx => hb x (by simp [hx])
      have hlent : cst.length = bst.length := by simpa using hlen
      have hvc : (0 : ℚ) ≤ (if s < e.semana_actual then e.ventas_reales_bd c.canal s else 0) := by
        split_ifs
        · exact hv c.canal s
        · exact le_refl 0
      by_cases hp : e.presente c.canal s = true
      · simp only [procesarCanales, hp, if_true]
        refine List.Forall₂.cons ?_ (ih bst hlent hbt)
        show max 0 (b - (if s < e.semana_actual then e.ventas_reales_bd c.canal s else 0)) ≤ b
        exact max_le hbh (by linarith)
      · simp only [procesarCanales, hp, if_false]
        exact List.Forall₂.cons (le_refl b) (ih bst hlent hbt)

theorem longitud_procesarCanales (e : Entrada) (s : ℕ) (total suma invR fis : ℚ) :
    ∀ (cs : List CanalDatos) (bs : List ℚ),
      (procesarCanales e s total suma invR fis cs bs).2.length = min cs.length bs.length := by
  intro cs
  induction cs with
  | nil => intro bs; simp [procesarCanales]
  | cons c cst ih =>
    intro bs
    cases bs with
    | nil => simp [procesarCanales]
    | cons b bst =>
      by_cases hp : e.presente c.canal s = true
      · simp only [procesarCanales, if_pos hp, List.length_cons, ih bst]
        omega
      · simp only [procesarCanales, if_neg hp, List.length_cons, ih bst]
        omega

theorem longitud_bolsas_paso (e : Entrada) (st : Estado) (s : ℕ)
    (hlen : st.bolsas.length = e.canales.length) :
    (procesarSemana e st s).1.bolsas.length = e.canales.length := by
  rw [procesarSemana]
  by_cases hsem : hayFilaSemana e s e.canales = true
  · simp only [hsem, if_true, longitud_procesarCanales, hlen]
    omega
  · simp only [hsem, if_false]
    exact hlen

theorem longitud_bolsas_correr (e : Entrada) :
    ∀ (l : List ℕ) (st : Estado), st.bolsas.length = e.canales.length →
      (correr e st l).1.bolsas.length = e.canales.length := by
  intro l
  induction l with
  | nil => intro st h; exact h
  | cons s t ih =>
    intro st h
    exact ih (procesarSemana e st s).1 (longitud_bolsas_paso e st s h)

theorem longitud_bolsasIniciales :
    ∀ cs : List CanalDatos, (bolsasIniciales cs).length = cs.length := by
  intro cs
  induction cs with
  | nil => rfl
  | cons c t ih => simp [bolsasIniciales, ih]

theorem bolsas_le_paso (e : Entrada) (st : Estado) (s : ℕ)
    (hv : ∀ c sp, 0 ≤ e.ventas_reales_bd c sp)
    (hb : ∀ b ∈ st.bolsas, 0 ≤ b)
    (hlen : st.bolsas.length = e.canales.length) :
    List.Forall₂ (· ≤ ·) (procesarSemana e st s).1.bolsas st.bolsas := by
  rw [procesarSemana]
  by_cases hsem : hayFilaSemana e s e.canales = true
  · simp only [hsem, if_true]
    exact bolsas_le_procesarCanales e s _ _ _ _ hv e.canales st.bolsas hlen.symm hb
  · simp only [hsem, if_false]
    exact List.forall₂_same.mpr (fun b _ => le_refl b)

/-- Claim C6: the bolsas start equal to the channels' monthly quotas
(positionally, channel by channel), and after processing one more week every
bolsa is at most what it was: the only write is
`bolsa := max(0, bolsa - ventas_calculo)`, with `ventas_calculo` the real
sales for closed weeks and 0 for current/future weeks, never the week's
assignment. -/
theorem c6_bolsa_monotona (e : Entrada)
    (hcup : ∀ c ∈ e.canales, 0 ≤ c.cupo_mensual_canal)
    (hv : ∀ c sp, 0 ≤ e.ventas_reales_bd c sp) :
    List.Forall₂ (fun (b : ℚ) (c : CanalDatos) => b = c.cupo_mensual_canal)
      (estadoInicial e).bolsas e.canales ∧
    ∀ (l : List ℕ) (s : ℕ),
      List.Forall₂ (· ≤ ·)
        ((correr e (estadoInicial e) (l ++ [s])).1.bolsas)
        ((correr e (estadoInicial e) l).1.bolsas) := by
  constructor
  · exact bolsasIniciales_cupos e.canales
  · intro l s
    rw [correr_append]
    simp only [correr]
    exact bolsas_le_paso e (correr e (estadoInicial e) l).1 s hv
      (bolsas_nonneg_correr e l (estadoInicial e)
        (bolsasIniciales_nonneg e.canales hcup))
      (longitud_bolsas_correr e l (estadoInicial e) (longitud_bolsasIniciales e.canales))

theorem c6_bolsa_monotona_testigo :
    List.Forall₂ (fun (b : ℚ) (c : CanalDatos) => b = c.cupo_mensual_canal)
      (estadoInicial entradaDesvioCanal).bolsas entradaDesvioCanal.canales ∧
    ∀ (l : List ℕ) (s : ℕ),
      List.Forall₂ (· ≤ ·)
        ((correr entradaDesvioCanal (estadoInicial entradaDesvioCanal) (l ++ [s])).1.bolsas)
        ((correr entradaDesvioCanal (estadoInicial entradaDesvioCanal) l).1.bolsas) :=
  c6_bolsa_monotona entradaDesvioCanal (by decide)
    (fun c sp => by
      show (0 : ℚ) ≤ (if c = 0 ∧ sp = 1 then 100 else 0)
      split_ifs <;> norm_num)

/-! ## C9: determinism -/

/-- Claim C9: the engine is a pure function of its inputs once "today's" week
number (read from the clock at line 1922) is taken as an input: two runs on
inputs that agree field for field (quotas, presence, sales, inventory columns,
configuration and the today reference) produce identical plans and identical
validator verdicts. -/
theorem c9_determinismo (e₁ e₂ : Entrada)
    (h₁ : e₁.canales = e₂.canales) (h₂ : e₁.presente = e₂.presente)
    (h₃ : e₁.ventas_reales_bd = e₂.ventas_reales_bd)
    (h₄ : e₁.inventario_inicial_db = e₂.inventario_inicial_db)
    (h₅ : e₁.arribos_esperados = e₂.arribos_esperados)
    (h₆ : e₁.forecast_b2b = e₂.forecast_b2b)
    (h₇ : e₁.cupo_mensual_total_df = e₂.cupo_mensual_total_df)
    (h₈ : e₁.semanas = e₂.semanas) (h₉ : e₁.factores = e₂.factores)
    (h₁₀ : e₁.semana_actual = e₂.semana_actual) :
    calcularAsignacionSemanalSecuencial e₁ = calcularAsignacionSemanalSecuencial e₂ := by
  obtain ⟨c₁, p₁, v₁, i₁, a₁, f₁, q₁, s₁, fa₁, sa₁⟩ := e₁
  obtain ⟨c₂, p₂, v₂, i₂, a₂, f₂, q₂, s₂, fa₂, sa₂⟩ := e₂
  simp only at h₁ h₂ h₃ h₄ h₅ h₆ h₇ h₈ h₉ h₁₀
  subst h₁ h₂ h₃ h₄ h₅ h₆ h₇ h₈ h₉ h₁₀
  rfl

theorem c9_determinismo_testigo :
    calcularAsignacionSemanalSecuencial entradaBenigna =
      calcularAsignacionSemanalSecuencial entradaBenigna :=
  c9_determinismo entradaBenigna entradaBenigna rfl rfl rfl rfl rfl rfl rfl rfl rfl rfl

/-! ## C1: supporting lemmas for the conservation bound -/

theorem insertarOrdenado_cabeza (n : ℕ) (l : List ℕ) (h : ∀ m ∈ l, n ≤ m) :
    insertarOrdenado n l = n :: l := by
  cases l with
  | nil => rfl
  | cons m t => rw [insertarOrdenado, if_pos (h m (by simp))]

theorem ordenar_de_ordenada : ∀ l : List ℕ, List.Sorted (· < ·) l → ordenar l = l := by
  intro l
  induction l with
  | nil => intro _; rfl
  | cons a t ih =>
    intro h
    obtain ⟨ha, ht⟩ := List.sorted_cons.mp h
    rw [ordenar, ih ht]
    exact insertarOrdenado_cabeza a t (fun m hm => le_of_lt (ha m hm))

theorem ventasRealesPasadas_abierto (e : Entrada) (s : ℕ) :
    ∀ l : List ℕ, (∀ x ∈ l, e.semana_actual ≤ x) → ventasRealesPasadas e s l = 0 := by
  intro l
  induction l with
  | nil => intro _; rfl
  | cons sp t ih =>
    intro h
    have hsp : ¬ (sp < s ∧ sp < e.semana_actual) := by
      intro hc
      exact absurd (h sp (by simp)) (by omega)
    rw [ventasRealesPasadas, if_neg hsp, ih (fun x hx => h x (by simp [hx])), add_zero]

theorem sumaFactoresRestantes_nonneg (e : Entrada) (s : ℕ) :
    ∀ l : List ℕ, (∀ x ∈ l, 0 ≤ e.factores x) → 0 ≤ sumaFactoresRestantes e s l := by
  intro l
  induction l with
  | nil => intro _; exact le_refl 0
  | cons x t ih =>
    intro h
    rw [sumaFactoresRestantes]
    have h1 : (0:ℚ) ≤ (if s ≤ x then e.factores x else 0) := by
      split_ifs
      · exact h x (by simp)
      · exact le_refl 0
    have h2 := ih (fun y hy => h y (by simp [hy]))
    linarith

theorem factor_le_sumaRestantes (e : Entrada) (s : ℕ) :
    ∀ l : List ℕ, s ∈ l → (∀ x ∈ l, 0 ≤ e.factores x) →
      e.factores s ≤ sumaFactoresRestantes e s l := by
  intro l
  induction l with
  | nil => intro h; simp at h
  | cons x t ih =>
    intro hs h
    rw [sumaFactoresRestantes]
    rcases List.mem_cons.mp hs with h1 | h1
    · rw [← h1, if_pos (le_refl s)]
      have := sumaFactoresRestantes_nonneg e s t (fun y hy => h y (by simp [hy]))
      linarith
    · have hrec := ih h1 (fun y hy => h y (by simp [hy]))
      have h2 : (0:ℚ) ≤ (if s ≤ x then e.factores x else 0) := by
        split_ifs
        · exact h x (by simp)
        · exact le_refl 0
      linarith

theorem sumaFactoresRestantes_pos (e : Entrada) (s : ℕ) (hs : s ∈ e.semanas)
    (hfac : ∀ x ∈ e.semanas, 0 < e.factores x) :
    0 < sumaFactoresRestantes e s e.semanas :=
  lt_of_lt_of_le (hfac s hs)
    (factor_le_sumaRestantes e s e.semanas hs (fun x hx => le_of_lt (hfac x hx)))

theorem proporcion_nonneg (e : Entrada) (s : ℕ) (hf : 0 ≤ e.factores s) :
    0 ≤ proporcionSemana e s := by
  rw [proporcionSemana]
  split_ifs with h
  · exact div_nonneg hf (le_of_lt h)
  · exact le_refl 0

theorem proporcion_le_uno (e : Entrada) (s : ℕ) (hs : s ∈ e.semanas)
    (hfac : ∀ x ∈ e.semanas, 0 < e.factores x) :
    proporcionSemana e s ≤ 1 := by
  have hpos := sumaFactoresRestantes_pos e s hs hfac
  rw [proporcionSemana, if_pos hpos]
  rw [div_le_one hpos]
  exact factor_le_sumaRestantes e s e.semanas hs (fun x hx => le_of_lt (hfac x hx))

theorem sumaFactoresRestantes_solo_max (e : Entrada) (m : ℕ) :
    ∀ l : List ℕ, (∀ x ∈ l, ¬ m ≤ x) →
      sumaFactoresRestantes e m (l ++ [m]) = e.factores m := by
  intro l
  induction l with
  | nil =>
    intro _
    show (if m ≤ m then e.factores m else 0) + sumaFactoresRestantes e m [] = e.factores m
    rw [if_pos (le_refl m)]
    show e.factores m + 0 = e.factores m
    exact add_zero _
  | cons x t ih =>
    intro h
    show (if m ≤ x then e.factores x else 0) + sumaFactoresRestantes e m (t ++ [m]) =
      e.factores m
    rw [if_neg (h x (by simp)), ih (fun y hy => h y (by simp [hy])), zero_add]

theorem proporcion_ultimo (e : Entrada) (l : List ℕ) (m : ℕ)
    (hsem : e.semanas = l ++ [m]) (hlt : ∀ x ∈ l, x < m) (hfm : 0 < e.factores m) :
    proporcionSemana e m = 1 := by
  have hsum : sumaFactoresRestantes e m e.semanas = e.factores m := by
    rw [hsem]
    exact sumaFactoresRestantes_solo_max e m l (fun x hx => by
      have := hlt x hx
      omega)
  rw [proporcionSemana, hsum, if_pos hfm]
  exact div_self (ne_of_gt hfm)

theorem sumaBolsasPositivas_iniciales (cs : List CanalDatos)
    (h : ∀ c ∈ cs, 0 ≤ c.cupo_mensual_canal) :
    sumaBolsasPositivas (bolsasIniciales cs) = sumaCupos cs := by
  rw [sumaBolsasPositivas_eq_sumaLista _ (bolsasIniciales_nonneg cs h),
    sumaLista_bolsasIniciales]

theorem hayFilaSemana_de_presencia (e : Entrada) (s : ℕ) (cs : List CanalDatos)
    (hne : cs ≠ []) (h : ∀ c ∈ cs, e.presente c.canal s = true) :
    hayFilaSemana e s cs = true := by
  cases cs with
  | nil => exact absurd rfl hne
  | cons c t =>
    rw [hayFilaSemana, h c (by simp), Bool.true_or]

theorem procesarCanales_abierto (e : Entrada) (s : ℕ) (total suma invR fis : ℚ)
    (hs_open : e.semana_actual ≤ s) (hsuma : 0 < suma) (htot : total ≤ suma) :
    ∀ cs : List CanalDatos, (∀ c ∈ cs, 0 ≤ c.cupo_mensual_canal) →
      (∀ c ∈ cs, e.presente c.canal s = true) →
      (procesarCanales e s total suma invR fis cs (bolsasIniciales cs)).2 =
        bolsasIniciales cs ∧
      |(sumaAsignaciones
          (procesarCanales e s total suma invR fis cs (bolsasIniciales cs)).1 : ℚ)
        - total * sumaCupos cs / suma| ≤ (cs.length : ℚ) / 2 := by
  intro cs
  induction cs with
  | nil =>
    intro _ _
    constructor
    · rfl
    · simp [procesarCanales, bolsasIniciales, sumaAsignaciones, sumaCupos]
  | cons c cst ih =>
    intro hcup hpres
    have hc0 : 0 ≤ c.cupo_mensual_canal := hcup c (by simp)
    have hp := hpres c (by simp)
    obtain ⟨ihb, ihs⟩ :=
      ih (fun x hx => hcup x (by simp [hx])) (fun x hx => hpres x (by simp [hx]))
    have hmin : total * (c.cupo_mensual_canal / suma) ≤ c.cupo_mensual_canal := by
      rw [← mul_div_assoc, div_le_iff hsuma]
      nlinarith [mul_le_mul_of_nonneg_right htot hc0]
    have hrow : (filaCanal e s total suma invR fis c c.cupo_mensual_canal).1.asignacion_canal
        = pyRound (total * (c.cupo_mensual_canal / suma)) := by
      show pyRound (min (total * (if 0 < suma then c.cupo_mensual_canal / suma else 0))
        c.cupo_mensual_canal) = _
      rw [if_pos hsuma, min_eq_left hmin]
    have hbolsa : (filaCanal e s total suma invR fis c c.cupo_mensual_canal).2
        = c.cupo_mensual_canal := by
      show max 0 (c.cupo_mensual_canal -
        (if s < e.semana_actual then e.ventas_reales_bd c.canal s else 0)) = _
      rw [if_neg (by omega), sub_zero]
      exact max_eq_right hc0
    constructor
    · simp only [bolsasIniciales, procesarCanales, if_pos hp]
      rw [hbolsa, ihb]
    · simp only [bolsasIniciales, procesarCanales, if_pos hp, sumaAsignaciones,
        sumaCupos, List.length_cons]
      rw [hrow]
      have key : total * (c.cupo_mensual_canal + sumaCupos cst) / suma
          = total * (c.cupo_mensual_canal / suma) + total * sumaCupos cst / suma := by
        rw [mul_add, add_div, mul_div_assoc]
      rw [key]
      have h1 := abs_pyRound_sub (total * (c.cupo_mensual_canal / suma))
      have hsplit : ((pyRound (total * (c.cupo_mensual_canal / suma)) : ℚ) +
          (sumaAsignaciones
            (procesarCanales e s total suma invR fis cst (bolsasIniciales cst)).1 : ℚ)) -
          (total * (c.cupo_mensual_canal / suma) + total * sumaCupos cst / suma)
          = ((pyRound (total * (c.cupo_mensual_canal / suma)) : ℚ) -
              total * (c.cupo_mensual_canal / suma)) +
            ((sumaAsignaciones
              (procesarCanales e s total suma invR fis cst (bolsasIniciales cst)).1 : ℚ) -
              total * sumaCupos cst / suma) := by ring
      push_cast
      rw [hsplit]
      have htri := abs_add
        ((pyRound (total * (c.cupo_mensual_canal / suma)) : ℚ) -
          total * (c.cupo_mensual_canal / suma))
        ((sumaAsignaciones
          (procesarCanales e s total suma invR fis cst (bolsasIniciales cst)).1 : ℚ) -
          total * sumaCupos cst / suma)
      linarith [h1, ihs, htri]

theorem paso_abierto (e : Entrada)
    (hopen : ∀ x ∈ e.semanas, e.semana_actual ≤ x)
    (hpres : ∀ c ∈ e.canales, ∀ x ∈ e.semanas, e.presente c.canal x = true)
    (hcup : ∀ c ∈ e.canales, 0 ≤ c.cupo_mensual_canal)
    (hfac : ∀ x ∈ e.semanas, 0 < e.factores x)
    (hcne : e.canales ≠ [])
    (hT : 0 < cupoMensualTotalSku e)
    (s : ℕ) (hs : s ∈ e.semanas) (st : Estado)
    (hbol : st.bolsas = bolsasIniciales e.canales)
    (hA : 0 ≤ st.asignaciones_acumuladas) :
    (procesarSemana e st s).1.bolsas = bolsasIniciales e.canales ∧
    (procesarSemana e st s).1.asignaciones_acumuladas =
      st.asignaciones_acumuladas + sumaAsignaciones (procesarSemana e st s).2 ∧
    |(sumaAsignaciones (procesarSemana e st s).2 : ℚ) -
      (cupoMensualTotalSku e - (st.asignaciones_acumuladas : ℚ)) *
        proporcionSemana e s| ≤ (e.canales.length : ℚ) / 2 := by
  have hsem := hayFilaSemana_de_presencia e s e.canales hcne (fun c hc => hpres c hc s hs)
  have hsumaI : sumaBolsasPositivas (bolsasIniciales e.canales) = cupoMensualTotalSku e :=
    sumaBolsasPositivas_iniciales e.canales hcup
  have hso : e.semana_actual ≤ s := hopen s hs
  have htotal : inventarioSemanalTotal e st s =
      (cupoMensualTotalSku e - (st.asignaciones_acumuladas : ℚ)) * proporcionSemana e s := by
    rw [inventarioSemanalTotal, if_pos hso, inventarioTeoricoSemana,
      inventarioDisponibleMes, ventasRealesPasadas_abierto e s e.semanas hopen, sub_zero]
  have hp0 : 0 ≤ proporcionSemana e s := proporcion_nonneg e s (le_of_lt (hfac s hs))
  have hp1 : proporcionSemana e s ≤ 1 := proporcion_le_uno e s hs hfac
  have hAq : (0:ℚ) ≤ (st.asignaciones_acumuladas : ℚ) := by exact_mod_cast hA
  have htle : (cupoMensualTotalSku e - (st.asignaciones_acumuladas : ℚ)) *
      proporcionSemana e s ≤ cupoMensualTotalSku e := by
    nlinarith [hp0, hp1, hAq, hT]
  obtain ⟨h2b, h2s⟩ := procesarCanales_abierto e s
    ((cupoMensualTotalSku e - (st.asignaciones_acumuladas : ℚ)) * proporcionSemana e s)
    (cupoMensualTotalSku e)
    (inventarioInicialReal (e.inventario_inicial_db s)
      st.inventario_disponible_semana_anterior)
    (inventarioFisicoSemana e st s) hso hT htle e.canales hcup
    (fun c hc => hpres c hc s hs)
  have hTT : (cupoMensualTotalSku e - (st.asignaciones_acumuladas : ℚ)) *
      proporcionSemana e s * sumaCupos e.canales / cupoMensualTotalSku e
      = (cupoMensualTotalSku e - (st.asignaciones_acumuladas : ℚ)) *
        proporcionSemana e s := by
    show (cupoMensualTotalSku e - (st.asignaciones_acumuladas : ℚ)) *
      proporcionSemana e s * cupoMensualTotalSku e / cupoMensualTotalSku e = _
    exact mul_div_cancel_right₀ _ (ne_of_gt hT)
  rw [hTT] at h2s
  refine ⟨?_, ?_, ?_⟩
  · simp only [procesarSemana, if_pos hsem]
    rw [hbol, hsumaI, htotal]
    exact h2b
  · simp only [procesarSemana, if_pos hsem, if_pos hso]
  · simp only [procesarSemana, if_pos hsem]
    rw [hbol, hsumaI, htotal]
    exact h2s

theorem correr_abierto_cota (e : Entrada)
    (hopen : ∀ x ∈ e.semanas, e.semana_actual ≤ x)
    (hpres : ∀ c ∈ e.canales, ∀ x ∈ e.semanas, e.presente c.canal x = true)
    (hcup : ∀ c ∈ e.canales, 0 ≤ c.cupo_mensual_canal)
    (hfac : ∀ x ∈ e.semanas, 0 < e.factores x)
    (hshare : ∀ x ∈ e.semanas, (e.canales.length : ℚ) ≤
      2 * cupoMensualTotalSku e * proporcionSemana e x)
    (hcne : e.canales ≠ [])
    (hT : 0 < cupoMensualTotalSku e) :
    ∀ (l : List ℕ) (m : ℕ), (∀ x ∈ l ++ [m], x ∈ e.semanas) →
      proporcionSemana e m = 1 →
      ∀ st : Estado, st.bolsas = bolsasIniciales e.canales →
        0 ≤ st.asignaciones_acumuladas →
        |((correr e st (l ++ [m])).1.asignaciones_acumuladas : ℚ) -
          cupoMensualTotalSku e| ≤ (e.canales.length : ℚ) / 2 ∧
        sumaAsignaciones (correr e st (l ++ [m])).2 =
          (correr e st (l ++ [m])).1.asignaciones_acumuladas -
            st.asignaciones_acumuladas := by
  intro l
  induction l with
  | nil =>
    intro m hmem hpm st hbol hA
    obtain ⟨hb, ha, habs⟩ := paso_abierto e hopen hpres hcup hfac hcne hT m
      (hmem m (by simp)) st hbol hA
    rw [hpm, mul_one] at habs
    simp only [List.nil_append, correr]
    constructor
    · rw [ha]
      have hsplit : (((st.asignaciones_acumuladas +
          sumaAsignaciones (procesarSemana e st m).2 : ℤ)) : ℚ) -
          cupoMensualTotalSku e =
          (sumaAsignaciones (procesarSemana e st m).2 : ℚ) -
          (cupoMensualTotalSku e - (st.asignaciones_acumuladas : ℚ)) := by
        push_cast
        ring
      rw [hsplit]
      exact habs
    · rw [List.append_nil, ha]
      omega
  | cons s t ih =>
    intro m hmem hpm st hbol hA
    have hs_sem : s ∈ e.semanas := hmem s (by simp)
    obtain ⟨hb, ha, habs⟩ := paso_abierto e hopen hpres hcup hfac hcne hT s
      hs_sem st hbol hA
    have hsh := hshare s hs_sem
    have hp0 := proporcion_nonneg e s (le_of_lt (hfac s hs_sem))
    have hp1 := proporcion_le_uno e s hs_sem hfac
    have hAq : (0:ℚ) ≤ (st.asignaciones_acumuladas : ℚ) := by exact_mod_cast hA
    have hA' : 0 ≤ (procesarSemana e st s).1.asignaciones_acumuladas := by
      rw [ha]
      have hlow := (abs_le.mp habs).1
      have hgoal : (0:ℚ) ≤ (st.asignaciones_acumuladas : ℚ) +
          (sumaAsignaciones (procesarSemana e st s).2 : ℚ) := by
        nlinarith [mul_nonneg hAq (sub_nonneg.mpr hp1)]
      exact_mod_cast hgoal
    obtain ⟨ihabs, ihsum⟩ := ih m (fun x hx => hmem x (by simp [hx])) hpm
      (procesarSemana e st s).1 hb hA'
    simp only [List.cons_append, correr, List.append_eq]
    constructor
    · exact ihabs
    · rw [sumaAsignaciones_append, ihsum, ha]
      omega

/-- Claim C1 as amended: per SKU, not per channel, and for a month the
physical cap genuinely cannot touch: all configured weeks are current or
future (for closed weeks even the SKU-level sum can drift, because the pool
subtracts real sales while the rows keep the week's assignment —
`entradaDesvioCanal` spends its closed week exactly on quota and still breaks
the per-channel claim), the week numbers are strictly increasing, every
channel has a row every week, quotas are nonnegative, seasonality factors are
positive, and every week's share satisfies
`channels ≤ 2 * totalQuota * share` (with at most 20 channels).  Then the
total assigned over all channels and weeks is within
`max(totalQuota * 1%, 10)` of the SKU's total monthly quota: the engine
self-corrects, so only the last week's per-channel roundings (at most 1/2
unit each) separate the total from the quota. -/
theorem c1_conservacion_enmendada (e : Entrada)
    (hsort : List.Sorted (· < ·) e.semanas) (hne : e.semanas ≠ [])
    (hopen : ∀ x ∈ e.semanas, e.semana_actual ≤ x)
    (hpres : ∀ c ∈ e.canales, ∀ x ∈ e.semanas, e.presente c.canal x = true)
    (hcup : ∀ c ∈ e.canales, 0 ≤ c.cupo_mensual_canal)
    (hfac : ∀ x ∈ e.semanas, 0 < e.factores x)
    (hshare : ∀ x ∈ e.semanas, (e.canales.length : ℚ) ≤
      2 * cupoMensualTotalSku e * proporcionSemana e x)
    (hcne : e.canales ≠ []) (hn : e.canales.length ≤ 20) :
    |(sumaAsignaciones (procesarSku e) : ℚ) - cupoMensualTotalSku e| ≤
      toleranciaSku (cupoMensualTotalSku e) := by
  obtain ⟨s₀, hs₀⟩ := List.exists_mem_of_ne_nil e.semanas hne
  have hn1 : (1:ℚ) ≤ (e.canales.length : ℚ) := by
    have : 1 ≤ e.canales.length := List.length_pos.mpr hcne
    exact_mod_cast this
  have hp0 := proporcion_nonneg e s₀ (le_of_lt (hfac s₀ hs₀))
  have hp1 := proporcion_le_uno e s₀ hs₀ hfac
  have hsh := hshare s₀ hs₀
  have hT : 0 < cupoMensualTotalSku e := by
    by_contra hTn
    push_neg at hTn
    nlinarith [hsh, hp0, hn1]
  obtain hnil | ⟨l', m, hdec⟩ := List.eq_nil_or_concat e.semanas
  · exact absurd hnil hne
  rw [List.concat_eq_append] at hdec
  have hlt : ∀ x ∈ l', x < m := by
    have hs2 := hsort
    rw [hdec] at hs2
    intro x hx
    exact (List.pairwise_append.mp hs2).2.2 x hx m (by simp)
  have hpm : proporcionSemana e m = 1 :=
    proporcion_ultimo e l' m hdec hlt (hfac m (by rw [hdec]; simp))
  have hord : ordenar e.semanas = e.semanas := ordenar_de_ordenada e.semanas hsort
  obtain ⟨habs, hsum⟩ := correr_abierto_cota e hopen hpres hcup hfac hshare hcne hT l' m
    (fun x hx => by rw [hdec]; exact hx) hpm (estadoInicial e) rfl (le_refl 0)
  rw [procesarSku, hord, hdec, hsum]
  have h10 : (e.canales.length : ℚ) / 2 ≤ 10 := by
    have : (e.canales.length : ℚ) ≤ 20 := by exact_mod_cast hn
    linarith
  have htol : (10:ℚ) ≤ toleranciaSku (cupoMensualTotalSku e) := by
    rw [toleranciaSku]
    exact le_max_right _ _
  have hA0 : (estadoInicial e).asignaciones_acumuladas = 0 := rfl
  rw [hA0, sub_zero]
  linarith [habs, h10, htol]

theorem c1_conservacion_enmendada_testigo :
    |(sumaAsignaciones (procesarSku entradaBenigna) : ℚ) -
      cupoMensualTotalSku entradaBenigna| ≤
      toleranciaSku (cupoMensualTotalSku entradaBenigna) :=
  c1_conservacion_enmendada entradaBenigna (by decide) (by decide) (by decide)
    (fun c _ x _ => rfl) (by decide) (by decide)
    (by
      intro x hx
      have hx4 : x = 1 ∨ x = 2 ∨ x = 3 ∨ x = 4 := by
        simpa [entradaBenigna] using hx
      rcases hx4 with rfl | rfl | rfl | rfl <;>
        norm_num [entradaBenigna, proporcionSemana, sumaFactoresRestantes,
          cupoMensualTotalSku, sumaCupos])
    (by decide) (by decide)
